import Mathlib

/-!
Verification of the highlight-to-reel rendering pipeline of the
`video2reel` repository, a shallow embedding of
`service/video_editor_service.py` and
`backend/service/twelvelabs_service.py`.

Times and ratios are modelled as exact rationals (`ℚ`); Python `int()`
truncation is modelled explicitly; fallible operations return `Except` or
`Option`; the external media engine (moviepy) is modelled at the level of
the primitives the repository calls (trim, crop, resize, text overlay,
composite), with the fallible black-box primitives taken as parameters.
-/

namespace Video2Reel

/-- A caption segment `{text, start, end}` in seconds.  Mirrors the caption
dictionaries of `video_editor_service.py` (keys `text`, `start`, `end`). -/
structure Caption where
  text : String
  start : ℚ
  stop : ℚ
  deriving Repr, DecidableEq

/-- A highlight `{title, start, end}` as produced by the highlight parser or
supplied by a caller. -/
structure Highlight where
  title : String
  start : ℚ
  stop : ℚ
  deriving Repr, DecidableEq

/-- Python `int()` on a rational: truncation toward zero. -/
def pyInt (q : ℚ) : ℤ :=
  if 0 ≤ q then ⌊q⌋ else -⌊-q⌋

/-- Python `str.strip()`: remove leading and trailing whitespace. -/
def pyStrip (s : String) : String :=
  String.mk (((s.data.dropWhile Char.isWhitespace).reverse.dropWhile
    Char.isWhitespace).reverse)

/-- Python `str.rstrip()`: remove trailing whitespace. -/
def pyRStrip (s : String) : String :=
  String.mk ((s.data.reverse.dropWhile Char.isWhitespace).reverse)

/-! ## Re-basing / clamping step of the single-highlight pipeline

`VideoEditorService.process_highlight_to_reel`, lines 411–440: each caption
of the full track is translated into highlight-relative time, kept only if
it overlaps the highlight, and clamped into `[0, clip_duration]`. -/

/-- The per-caption body of the adjustment loop of
`process_highlight_to_reel` (lines 418–440): re-base to the highlight
start, keep only on overlap (`cap_end > 0 and cap_start < clip_duration`),
clamp into `[0, clip_duration]`, keep only if the clamped interval has
positive length. -/
def adjustOne (start_time end_time : ℚ) (cap : Caption) : Option Caption :=
  let clip_duration := end_time - start_time
  let cap_start := cap.start - start_time
  let cap_end := cap.stop - start_time
  if cap_end > 0 ∧ cap_start < clip_duration then
    let adjusted_start := max 0 cap_start
    let adjusted_end := min clip_duration cap_end
    if adjusted_end > adjusted_start then
      some { text := cap.text, start := adjusted_start, stop := adjusted_end }
    else
      none
  else
    none

/-- The full re-basing/clamping step: the list `adjusted_captions` built by
`process_highlight_to_reel` from the full caption track. -/
def adjustCaptions (start_time end_time : ℚ) (captions : List Caption) :
    List Caption :=
  captions.filterMap (adjustOne start_time end_time)

/-! ## The caption overlay stage `VideoEditorService.add_captions`
(lines 283–371).

The overlay-construction primitive `create_caption_clip` builds a text
overlay carrying the duration passed to it (`set_duration(duration)`), and
may raise (e.g. on an unavailable font); its success or failure is taken as
a parameter `mkOk`, and the compositing primitive `CompositeVideoClip` as a
parameter `comp`, with `none` modelling a raised exception. -/

/-- A positioned text overlay: the result of `create_caption_clip` followed
by `set_start` inside `add_captions`. -/
structure Overlay where
  text : String
  start : ℚ
  duration : ℚ
  deriving Repr, DecidableEq

/-- A clip as observed by `add_captions`: its duration, frame rate in
frames per second, and the number of overlays composited onto it
(observational field distinguishing a composite from its base). -/
structure Clip where
  duration : ℚ
  fps : ℚ
  numOverlays : ℕ
  deriving Repr, DecidableEq

/-- The caption loop of `add_captions` (lines 316–353): skip empty text,
non-positive duration, negative start, start at or beyond the clip's
duration; clamp the end to the clip's duration; skip clamped durations
below 0.1 s; build the overlay via `create_caption_clip` (whose failure,
`mkOk text duration = false`, skips just that caption) and `set_start`. -/
def buildOverlays (mkOk : String → ℚ → Bool) (clipDuration : ℚ)
    (captions : List Caption) : List Overlay :=
  captions.filterMap fun caption =>
    let text := pyStrip caption.text
    let start := caption.start
    let stop := caption.stop
    let duration := stop - start
    if text = "" ∨ duration ≤ 0 ∨ start < 0 ∨ start ≥ clipDuration then
      none
    else
      let stop' := if stop > clipDuration then clipDuration else stop
      let duration' := stop' - start
      if duration' < 1/10 then
        none
      else if mkOk text duration' then
        some { text := text, start := start, duration := duration' }
      else
        none

/-- Model of `VideoEditorService.add_captions` (lines 283–371): returns the base
clip unchanged when the caption list is empty, when no valid overlay was
produced, or when the composite primitive fails (the function-level
`except` returns the original clip, so no exception propagates); on a
successful composite, the result is assigned exactly the base clip's
duration and fps. -/
def add_captions (mkOk : String → ℚ → Bool)
    (comp : Clip → List Overlay → Option Clip)
    (clip : Clip) (captions : List Caption) : Clip :=
  if captions = [] then
    clip
  else
    let caption_clips := buildOverlays mkOk clip.duration captions
    if caption_clips ≠ [] then
      match comp clip caption_clips with
      | some final_clip => { final_clip with duration := clip.duration, fps := clip.fps }
      | none => clip
    else
      clip

/-! ## Geometric transform stage `VideoEditorService.resize_to_portrait`
(lines 148–200). -/

/-- Constant `VideoEditorService.REEL_WIDTH`. -/
def REEL_WIDTH : ℤ := 1080

/-- Constant `VideoEditorService.REEL_HEIGHT`. -/
def REEL_HEIGHT : ℤ := 1920

/-- Constant `VideoEditorService.REEL_ASPECT_RATIO = 9 / 16`. -/
def REEL_ASPECT_RATIO : ℚ := 9 / 16

/-- Observable result of the geometric transform stage: the crop window
`(x1, x2, y1, y2)` passed to `vfx.crop` (when one is applied) and the size
of the returned clip. -/
structure ResizeResult where
  cropWindow : Option (ℤ × ℤ × ℤ × ℤ)
  size : ℤ × ℤ
  deriving Repr, DecidableEq

/-- Model of `VideoEditorService.resize_to_portrait` (lines 148–200).  For `crop`,
the centered window is computed with Python `int()` and the cropped clip
is scaled to `(REEL_WIDTH, REEL_HEIGHT)`.  The `fit` branch reads the
local variable `target_ratio`, which is assigned only inside the `crop`
branch, so in Python it raises `UnboundLocalError` before any scaling
happens; that exception is modelled as an error result.  Any other method
string falls through both branches and the clip is returned unchanged. -/
def resize_to_portrait (w h : ℕ) (method : String) :
    Except String ResizeResult :=
  let original_ratio : ℚ := (w : ℚ) / (h : ℚ)
  if method = "crop" then
    let target_ratio := REEL_ASPECT_RATIO
    if original_ratio > target_ratio then
      let new_width := pyInt ((h : ℚ) * target_ratio)
      let x_center : ℚ := (w : ℚ) / 2
      let x1 := pyInt (x_center - (new_width : ℚ) / 2)
      let x2 := pyInt (x_center + (new_width : ℚ) / 2)
      .ok { cropWindow := some (x1, x2, 0, (h : ℤ)),
            size := (REEL_WIDTH, REEL_HEIGHT) }
    else
      let new_height := pyInt ((w : ℚ) / target_ratio)
      let y_center : ℚ := (h : ℚ) / 2
      let y1 := pyInt (y_center - (new_height : ℚ) / 2)
      let y2 := pyInt (y_center + (new_height : ℚ) / 2)
      .ok { cropWindow := some (0, (w : ℤ), y1, y2),
            size := (REEL_WIDTH, REEL_HEIGHT) }
  else if method = "fit" then
    .error "UnboundLocalError: local variable target_ratio referenced before assignment"
  else
    .ok { cropWindow := none, size := ((w : ℤ), (h : ℤ)) }

/-! ## Extraction: `VideoEditorService.extract_clip` (lines 127–146) and
the trim primitive of the media engine. -/

/-- A trimmed clip as returned by the trim primitive: its start offset
within the source and its duration (`newclip.duration = t_end - t_start`). -/
structure SubClip where
  start : ℚ
  duration : ℚ
  deriving Repr, DecidableEq

/-- The trim primitive `Clip.subclip(t_start, t_end)` of the media engine
(moviepy 1.x `Clip.subclip`), called by `extract_clip` on the opened
source video, whose `duration` is the source's actual duration discovered
at open time.  A negative `t_start` or `t_end` is re-interpreted relative
to the end of the clip; the primitive raises only when the adjusted
`t_start` exceeds the clip's duration; a `t_end` beyond the duration is
accepted and yields an over-long clip. -/
def subclip (duration t_start t_end : ℚ) : Except String SubClip :=
  let t_start' := if t_start < 0 then duration + t_start else t_start
  if t_start' > duration then
    .error "t_start should be smaller than the clip duration"
  else
    let t_end' := if t_end < 0 then duration + t_end else t_end
    .ok { start := t_start', duration := t_end' - t_start' }

/-- Model of `VideoEditorService.extract_clip` (lines 127–146): opens the source
video (`sourceDuration` is its actual duration, discovered at open time)
and returns `video.subclip(start_time, end_time)`; it adds no validation
of its own — an error raised by the primitive is logged and re-raised. -/
def extract_clip (sourceDuration start_time end_time : ℚ) :
    Except String SubClip :=
  subclip sourceDuration start_time end_time

/-! ## Batch pipeline `VideoEditorService.process_multiple_highlights`
(lines 486–542): output filenames and per-item failure isolation. -/

/-- Little-endian decimal digit characters of `n`; the first argument is
fuel (`n` itself suffices, see `pyDigitsAux_val`). -/
def pyDigitsAux : ℕ → ℕ → List Char
  | 0, _ => []
  | _ + 1, 0 => []
  | fuel + 1, n + 1 =>
      Nat.digitChar ((n + 1) % 10) :: pyDigitsAux fuel ((n + 1) / 10)

/-- Little-endian decimal digit characters of a positive `n`. -/
def pyDigits (n : ℕ) : List Char :=
  pyDigitsAux n n

/-- Python `str()` of a natural number: its decimal numeral. -/
def pyStr (n : ℕ) : String :=
  if n = 0 then "0" else String.mk (pyDigits n).reverse

/-- Decimal value of a little-endian digit-character list (used to show
`pyStr` is injective). -/
def digitsVal : List Char → ℕ
  | [] => 0
  | c :: cs => (c.toNat - 48) + 10 * digitsVal cs

/-- The sanitized title of `process_multiple_highlights` (lines 520–521):
`"".join(c for c in title if c.isalnum() or c in (' ', '-', '_'))`, then
`.rstrip()`, then `.replace(' ', '_')`. -/
def safeTitle (title : String) : String :=
  let filtered := String.mk (title.data.filter fun c =>
    c.isAlphanum || c == ' ' || c == '-' || c == '_')
  let stripped := pyRStrip filtered
  String.mk (stripped.data.map fun c => if c = ' ' then '_' else c)

/-- The batch output filename for the 0-based loop index `i` (line 522):
`f"reel_{i+1}_{safe_title}.mp4"`. -/
def outputFilename (i : ℕ) (title : String) : String :=
  "reel_" ++ pyStr (i + 1) ++ "_" ++ safeTitle title ++ ".mp4"

/-- Modelled from the claim's wording, for comparison with the code's
`safeTitle`: keep only alphanumerics, spaces, `-` and `_`, then replace
spaces with underscores — without the `rstrip()` the code performs. -/
def claimSlug (title : String) : String :=
  String.mk ((title.data.filter fun c =>
    c.isAlphanum || c == ' ' || c == '-' || c == '_').map fun c =>
      if c = ' ' then '_' else c)

/-- The batch output filename as the claim words it, built on `claimSlug`
instead of the code's `safeTitle`. -/
def claimFilename (i : ℕ) (title : String) : String :=
  "reel_" ++ pyStr (i + 1) ++ "_" ++ claimSlug title ++ ".mp4"

/-- Model of `VideoEditorService.process_multiple_highlights` (lines 486–542).  The
per-item body computes the output filename from the 1-based index and the
sanitized title, then invokes the single-highlight pipeline; `render`
stands for that fallible call (`process_highlight_to_reel`; `none` models
a raised exception, which the per-item `except` catches, logs, and skips
with `continue`, so the loop goes on and nothing is appended for that
highlight). -/
def process_multiple_highlights
    (render : ℕ → ℚ → ℚ → String → Option String) :
    ℕ → List Highlight → List String
  | _, [] => []
  | i, highlight :: rest =>
    let output_filename := outputFilename i highlight.title
    match render i highlight.start highlight.stop output_filename with
    | some reel_path =>
        reel_path :: process_multiple_highlights render (i + 1) rest
    | none => process_multiple_highlights render (i + 1) rest

/-! ## Resource handling of `process_highlight_to_reel` (lines 398–484). -/

/-- The clip handles the single-highlight pipeline can open: the source
video opened inside `extract_clip`, the trimmed sub-clip it returns, the
transformed clip produced by `resize_to_portrait`, and the composited
clip produced by `add_captions`. -/
inductive ClipHandle where
  | sourceVideo
  | trimmedClip
  | transformedClip
  | compositedClip
  deriving Repr, DecidableEq

/-- Resource-relevant outcome of one run of `process_highlight_to_reel`:
which handles were opened, the contents of the `temp_clips` list, and
which handles were closed before control returned. -/
structure PipelineRun where
  opened : List ClipHandle
  tempClips : List ClipHandle
  closed : List ClipHandle
  deriving Repr, DecidableEq

/-- The resource behaviour of `process_highlight_to_reel` (lines 398–484)
as a function of how far the run gets: `openOk` — the `VideoFileClip`
constructor succeeds; `trimOk` — `subclip` succeeds; `resizeOk` —
`resize_to_portrait` succeeds; `composited` — captions were requested,
survived re-basing, and `add_captions` successfully composited a new clip
(otherwise the clip is passed through unchanged).  Success or failure of
the final encode step does not change which handles exist or are closed.
Only the extracted sub-clip is ever appended to `temp_clips` (line 405),
and the `finally` block (lines 478–484) closes exactly the clips in
`temp_clips` on every exit path, swallowing errors of `close` itself. -/
def pipelineRun (openOk trimOk resizeOk composited : Bool) : PipelineRun :=
  if ¬openOk then
    { opened := [], tempClips := [], closed := [] }
  else if ¬trimOk then
    { opened := [.sourceVideo], tempClips := [], closed := [] }
  else if ¬resizeOk then
    { opened := [.sourceVideo, .trimmedClip],
      tempClips := [.trimmedClip], closed := [.trimmedClip] }
  else if composited then
    { opened := [.sourceVideo, .trimmedClip, .transformedClip,
        .compositedClip],
      tempClips := [.trimmedClip], closed := [.trimmedClip] }
  else
    { opened := [.sourceVideo, .trimmedClip, .transformedClip],
      tempClips := [.trimmedClip], closed := [.trimmedClip] }

/-! ## Concrete black-box behaviours used to exercise `add_captions`. -/

/-- A concrete overlay-construction behaviour that fails exactly on the
caption text `"bad"` (modelling, e.g., an unrenderable glyph). -/
def mkBad : String → ℚ → Bool :=
  fun text _ => text != "bad"

/-- A concrete composite primitive that always succeeds and records how
many overlays were composited. -/
def compCount : Clip → List Overlay → Option Clip :=
  fun _ overlays =>
    some { duration := 0, fps := 0, numOverlays := overlays.length }

/-! ## Highlight extraction from analysis text:
`TwelveLabsService._parse_highlights_from_analysis`
(`backend/service/twelvelabs_service.py`, lines 118–149).

The method runs `re.findall` with the pattern
`\*\*(.+?)\*\*:?\s*\[(\d+)s?\s*(?:\([^)]+\))?\s*~\s*(\d+)s?\s*(?:\([^)]+\))?\]`
over the analysis text and builds one highlight per match, coercing the
two captured integer-second fields with `float()` and stripping the
captured title.  The regular-expression engine is embedded below with
Python `re` semantics: leftmost match, backtracking priority (greedy
first for `?`, `*`, `+`; shortest first for the lazy `+?`), and
non-overlapping continuation after each match. -/

/-- Regular-expression AST covering the constructs used by the pattern. -/
inductive RE where
  | lit : Char → RE
  | cls : (Char → Bool) → RE
  | seq : RE → RE → RE
  | opt : RE → RE
  | star : RE → RE
  | plus : RE → RE
  | plusLazy : RE → RE
  | group : ℕ → RE → RE

/-- The three capturing groups of the pattern: title text, start seconds,
end seconds. -/
structure Caps where
  g1 : Option (List Char)
  g2 : Option (List Char)
  g3 : Option (List Char)
  deriving Repr, DecidableEq

/-- No group captured yet. -/
def caps0 : Caps := ⟨none, none, none⟩

/-- Record a capture for group `i`. -/
def setCap (i : ℕ) (v : List Char) (c : Caps) : Caps :=
  if i = 1 then { c with g1 := some v }
  else if i = 2 then { c with g2 := some v }
  else if i = 3 then { c with g3 := some v }
  else c

/-- Backtracking matcher: all ways the expression can match a prefix of
`s`, as `(remaining input, captures)` pairs in backtracking priority
order (the head is the match Python's `re` commits to).  `fuel` bounds
the derivation depth; every loop construct consumes at least one
character per iteration, so `matchFuel` below always suffices. -/
def mtch : ℕ → RE → List Char → Caps → List (List Char × Caps)
  | 0, _, _, _ => []
  | fuel + 1, r, s, caps =>
    match r with
    | .lit c =>
      match s with
      | [] => []
      | c' :: rest => if c' = c then [(rest, caps)] else []
    | .cls p =>
      match s with
      | [] => []
      | c' :: rest => if p c' then [(rest, caps)] else []
    | .seq a b =>
      (mtch fuel a s caps).flatMap fun p => mtch fuel b p.1 p.2
    | .opt a => mtch fuel a s caps ++ [(s, caps)]
    | .star a =>
      ((mtch fuel a s caps).flatMap fun p =>
        if p.1.length < s.length then mtch fuel (.star a) p.1 p.2 else [])
        ++ [(s, caps)]
    | .plus a => mtch fuel (.seq a (.star a)) s caps
    | .plusLazy a =>
      (mtch fuel a s caps).flatMap fun p =>
        p :: (if p.1.length < s.length then mtch fuel (.plusLazy a) p.1 p.2
              else [])
    | .group i a =>
      (mtch fuel a s caps).map fun p =>
        (p.1, setCap i (s.take (s.length - p.1.length)) p.2)

/-- Class for `.` (any character but a newline, `re.DOTALL` not being set). -/
def dotCls : RE := .cls fun c => c ≠ '\n'

/-- Class for `\d`. -/
def digitCls : RE := .cls Char.isDigit

/-- Class for `\s`. -/
def spaceCls : RE := .cls Char.isWhitespace

/-- Subpattern `\([^)]+\)` — the optional clock-time parenthetical. -/
def parenGroup : RE :=
  .seq (.lit '(') (.seq (.plus (.cls fun c => c ≠ ')')) (.lit ')'))

/-- The pattern of `_parse_highlights_from_analysis` (line 131):
`\*\*(.+?)\*\*:?\s*\[(\d+)s?\s*(?:\([^)]+\))?\s*~\s*(\d+)s?\s*(?:\([^)]+\))?\]`. -/
def highlightPattern : RE :=
  .seq (.lit '*') (.seq (.lit '*')
  (.seq (.group 1 (.plusLazy dotCls))
  (.seq (.lit '*') (.seq (.lit '*')
  (.seq (.opt (.lit ':'))
  (.seq (.star spaceCls)
  (.seq (.lit '[')
  (.seq (.group 2 (.plus digitCls))
  (.seq (.opt (.lit 's'))
  (.seq (.star spaceCls)
  (.seq (.opt parenGroup)
  (.seq (.star spaceCls)
  (.seq (.lit '~')
  (.seq (.star spaceCls)
  (.seq (.group 3 (.plus digitCls))
  (.seq (.opt (.lit 's'))
  (.seq (.star spaceCls)
  (.seq (.opt parenGroup)
  (.lit ']')))))))))))))))))))

/-- Ample derivation-depth fuel for matching the pattern against `s`. -/
def matchFuel (s : List Char) : ℕ := 64 + 8 * s.length

/-- Scanning loop of `re.findall`: try the pattern at each position from the
left; on a match, emit its captures and continue after the matched text
(non-overlapping); otherwise advance one character. -/
def scanAll : ℕ → List Char → List Caps
  | 0, _ => []
  | fuel + 1, s =>
    match (mtch (matchFuel s) highlightPattern s caps0).head? with
    | some p =>
      if p.1.length < s.length then p.2 :: scanAll fuel p.1
      else
        p.2 :: (match s with
                | [] => []
                | _ :: t => scanAll fuel t)
    | none =>
      match s with
      | [] => []
      | _ :: t => scanAll fuel t

/-- All matches of the pattern in `s`, leftmost first, non-overlapping. -/
def findall (s : List Char) : List Caps :=
  scanAll (s.length + 1) s

/-- Numeric value of a captured decimal-digit string. -/
def natOfDigits (cs : List Char) : ℕ :=
  cs.foldl (fun n c => 10 * n + (c.toNat - 48)) 0

/-- Model of `TwelveLabsService._parse_highlights_from_analysis` (lines 118–149):
one highlight per pattern match, with the stripped title and the two
integer-second captures coerced to (exact) floats; when no match is found
the empty list is returned, never an error. -/
def parse_highlights_from_analysis (analysis_text : String) :
    List Highlight :=
  (findall analysis_text.data).map fun caps =>
    { title := pyStrip (String.mk (caps.g1.getD []))
      start := (natOfDigits (caps.g2.getD []) : ℚ)
      stop := (natOfDigits (caps.g3.getD []) : ℚ) }

end Video2Reel

namespace Video2Reel

/-! ## Theorems for the caption claims -/

/-- **C3** (counterexample): the claim states that the re-basing/clamping
step itself drops captions whose clamped duration is below 0.1 s.  It does
not: for highlight `[0,10]`, a caption `[0, 1/20]` (duration 0.05 s <
0.1 s) is emitted by the step rather than dropped. -/
theorem C3_short_caption_not_dropped_by_rebase :
    adjustCaptions 0 10 [⟨"hi", 0, 1/20⟩] = [⟨"hi", 0, 1/20⟩] := by
  norm_num [adjustCaptions, adjustOne, List.filterMap_cons, min_def, max_def]

/-- **C3** (amended): every caption emitted by the re-basing/clamping step
of `process_highlight_to_reel` satisfies
`0 ≤ start < end ≤ end_time - start_time`; captions with clamped duration
below 0.1 s are dropped not by that step but by the subsequent caption
stage: every overlay built by the `add_captions` loop has duration
≥ 0.1 s. -/
theorem C3_rebase_clamp_bounds (start_time end_time : ℚ)
    (captions : List Caption) (c : Caption)
    (hc : c ∈ adjustCaptions start_time end_time captions) :
    (0 ≤ c.start ∧ c.start < c.stop ∧ c.stop ≤ end_time - start_time) ∧
      ∀ (mkOk : String → ℚ → Bool) (D : ℚ) (caps : List Caption)
        (o : Overlay), o ∈ buildOverlays mkOk D caps → 1/10 ≤ o.duration := by
  constructor
  · obtain ⟨cap, -, hadj⟩ := List.mem_filterMap.mp hc
    simp only [adjustOne] at hadj
    split at hadj
    · split at hadj
      · rename_i hpos
        obtain rfl := (Option.some.inj hadj).symm
        exact ⟨le_max_left _ _, hpos, min_le_left _ _⟩
      · exact absurd hadj (by simp)
    · exact absurd hadj (by simp)
  · intro mkOk D caps o ho
    obtain ⟨cap, -, hbuild⟩ := List.mem_filterMap.mp ho
    simp only [buildOverlays] at hbuild
    split at hbuild
    · exact absurd hbuild (by simp)
    · split at hbuild
      all_goals
        split at hbuild
        · exact absurd hbuild (by simp)
        · split at hbuild
          · rename_i hdur _
            obtain rfl := Option.some.inj hbuild
            exact le_of_not_lt hdur
          · exact absurd hbuild (by simp)

/-- Witness for `C3_rebase_clamp_bounds` at highlight `[2, 12]` and the
absolute caption `[5, 20]`, emitted re-based and clamped to `[3, 10]`. -/
theorem C3_rebase_clamp_bounds_witness :
    (0 ≤ (3:ℚ) ∧ (3:ℚ) < 10 ∧ (10:ℚ) ≤ 12 - 2) ∧
      ∀ (mkOk : String → ℚ → Bool) (D : ℚ) (caps : List Caption)
        (o : Overlay), o ∈ buildOverlays mkOk D caps → 1/10 ≤ o.duration :=
  C3_rebase_clamp_bounds 2 12 [⟨"w", 5, 20⟩] ⟨"w", 3, 10⟩ (by
    norm_num [adjustCaptions, adjustOne, List.filterMap_cons, min_def, max_def])

/-- **C4**: a caption of positive length is included in a well-formed
highlight's render (emitted by the re-basing step) exactly when its
absolute interval overlaps the highlight: `end_abs > h_start` and
`start_abs < h_end`.  In particular a caption `[5,8]` is included for
highlight `[0,10]`, re-based to `[5,8]`, and excluded for highlight
`[10,20]`. -/
theorem C4_overlap_inclusion (h_start h_end : ℚ) (cap : Caption)
    (hcap : cap.start < cap.stop) (hh : h_start < h_end) :
    ((adjustOne h_start h_end cap).isSome ↔
      (cap.stop > h_start ∧ cap.start < h_end)) ∧
      adjustOne 0 10 ⟨"hi", 5, 8⟩ = some ⟨"hi", 5, 8⟩ ∧
      adjustOne 10 20 ⟨"hi", 5, 8⟩ = none := by
  refine ⟨?_, by norm_num [adjustOne, min_def, max_def], by norm_num [adjustOne]⟩
  simp only [adjustOne]
  constructor
  · intro hsome
    split at hsome
    · rename_i hov
      exact ⟨by linarith [hov.1], by linarith [hov.2]⟩
    · exact absurd hsome (by simp)
  · rintro ⟨he, hs⟩
    have hov : cap.stop - h_start > 0 ∧ cap.start - h_start < h_end - h_start :=
      ⟨by linarith, by linarith⟩
    rw [if_pos hov, if_pos]
    · simp
    · rw [gt_iff_lt, max_lt_iff]
      exact ⟨lt_min_iff.mpr ⟨by linarith, by linarith⟩,
        lt_min_iff.mpr ⟨by linarith, by linarith⟩⟩

/-- Witness for `C4_overlap_inclusion` at caption `[5,8]` and highlight
`[0,10]`. -/
theorem C4_overlap_inclusion_witness :
    (((adjustOne 0 10 ⟨"hi", 5, 8⟩).isSome ↔
      ((8:ℚ) > 0 ∧ (5:ℚ) < 10)) ∧
      adjustOne 0 10 ⟨"hi", 5, 8⟩ = some ⟨"hi", 5, 8⟩ ∧
      adjustOne 10 20 ⟨"hi", 5, 8⟩ = none) :=
  C4_overlap_inclusion 0 10 ⟨"hi", 5, 8⟩ (by norm_num) (by norm_num)

/-! ## Theorems for the geometric transform claims -/

/-- Python `int()` agrees with the floor on nonnegative arguments. -/
theorem pyInt_of_nonneg {q : ℚ} (h : 0 ≤ q) : pyInt q = ⌊q⌋ :=
  if_pos h

/-- The floor of an integer divided by two, as rational division. -/
theorem floor_half_int (k : ℤ) : ⌊(k : ℚ) / 2⌋ = k / 2 := by
  have h : (k : ℚ) / 2 = (k : ℚ) / ((2 : ℕ) : ℚ) := by norm_num
  rw [h, Rat.floor_intCast_div_natCast]
  norm_num

/-- **C2** (the code at the failing input): `resize_to_portrait` with
method `fit` raises for every clip, because the `fit` branch compares
against the local `target_ratio`, which is assigned only inside the `crop`
branch; shown here at a 1920×1080 clip. -/
theorem C2_fit_raises :
    resize_to_portrait 1920 1080 "fit" =
      .error "UnboundLocalError: local variable target_ratio referenced before assignment" := by
  rfl

/-- **C6**: for every clip of non-zero dimensions, the `crop` method
computes a centered, integer-rounded crop window — width cropped to
`int(h * 9/16)` at full height when `w/h > 9/16`, otherwise height
cropped to `int(w / (9/16))` at full width, centered up to the integer
rounding — and the result is scaled to exactly 1080×1920; a 1080×1920
source's crop window is the whole frame. -/
theorem C6_crop_window (w h : ℕ) (hw : 0 < w) (hh : 0 < h) :
    (∃ x1 x2 y1 y2 : ℤ,
      resize_to_portrait w h "crop" =
        .ok ⟨some (x1, x2, y1, y2), (1080, 1920)⟩ ∧
      (if (w : ℚ) / (h : ℚ) > 9 / 16 then
        x2 - x1 = ⌊(h : ℚ) * (9 / 16)⌋ ∧ y1 = 0 ∧ y2 = (h : ℤ) ∧
          (x1 + x2 = (w : ℤ) ∨ x1 + x2 = (w : ℤ) - 1)
      else
        y2 - y1 = ⌊(w : ℚ) / (9 / 16)⌋ ∧ x1 = 0 ∧ x2 = (w : ℤ) ∧
          (y1 + y2 = (h : ℤ) ∨ y1 + y2 = (h : ℤ) - 1))) ∧
    resize_to_portrait 1080 1920 "crop" =
      .ok ⟨some (0, 1080, 0, 1920), (1080, 1920)⟩ := by
  constructor
  · simp only [resize_to_portrait, REEL_ASPECT_RATIO, REEL_WIDTH, REEL_HEIGHT,
      reduceIte]
    by_cases hr : (w : ℚ) / (h : ℚ) > 9 / 16
    · rw [if_pos hr]
      set nw : ℤ := pyInt ((h : ℚ) * (9 / 16)) with hnw
      have hnwfloor : nw = ⌊(h : ℚ) * (9 / 16)⌋ := by
        rw [hnw, pyInt_of_nonneg (by positivity)]
      have hnw0 : 0 ≤ nw := by
        rw [hnwfloor]; exact Int.floor_nonneg.mpr (by positivity)
      have hnww : (nw : ℚ) ≤ (h : ℚ) * (9 / 16) := by
        rw [hnwfloor]; exact Int.floor_le _
      have hlt : (h : ℚ) * (9 / 16) < (w : ℚ) := by
        have hhq : (0 : ℚ) < (h : ℚ) := by exact_mod_cast hh
        rw [gt_iff_lt, div_lt_div_iff₀ (by norm_num) hhq] at hr
        linarith
      have hx1 : pyInt ((w : ℚ) / 2 - (nw : ℚ) / 2) = ((w : ℤ) - nw) / 2 := by
        rw [pyInt_of_nonneg (by
          have : (nw : ℚ) < (w : ℚ) := lt_of_le_of_lt hnww hlt
          linarith)]
        rw [show (w : ℚ) / 2 - (nw : ℚ) / 2 = (((w : ℤ) - nw : ℤ) : ℚ) / 2 by
          push_cast; ring]
        exact floor_half_int _
      have hx2 : pyInt ((w : ℚ) / 2 + (nw : ℚ) / 2) = ((w : ℤ) + nw) / 2 := by
        rw [pyInt_of_nonneg (by
          have h0 : (0 : ℚ) ≤ (nw : ℚ) := by exact_mod_cast hnw0
          positivity)]
        rw [show (w : ℚ) / 2 + (nw : ℚ) / 2 = (((w : ℤ) + nw : ℤ) : ℚ) / 2 by
          push_cast; ring]
        exact floor_half_int _
      refine ⟨_, _, _, _, rfl, ?_⟩
      rw [if_pos hr, hx1, hx2, ← hnwfloor]
      refine ⟨by omega, rfl, rfl, by omega⟩
    · rw [if_neg hr]
      set nh : ℤ := pyInt ((w : ℚ) / (9 / 16)) with hnh
      have hnhfloor : nh = ⌊(w : ℚ) / (9 / 16)⌋ := by
        rw [hnh, pyInt_of_nonneg (by positivity)]
      have hnh0 : 0 ≤ nh := by
        rw [hnhfloor]; exact Int.floor_nonneg.mpr (by positivity)
      have hnhh : (nh : ℚ) ≤ (w : ℚ) / (9 / 16) := by
        rw [hnhfloor]; exact Int.floor_le _
      have hle : (w : ℚ) / (9 / 16) ≤ (h : ℚ) := by
        have hhq : (0 : ℚ) < (h : ℚ) := by exact_mod_cast hh
        rw [gt_iff_lt, not_lt, div_le_div_iff₀ hhq (by norm_num)] at hr
        rw [div_le_iff₀ (by norm_num)]
        linarith
      have hy1 : pyInt ((h : ℚ) / 2 - (nh : ℚ) / 2) = ((h : ℤ) - nh) / 2 := by
        rw [pyInt_of_nonneg (by
          have : (nh : ℚ) ≤ (h : ℚ) := le_trans hnhh hle
          linarith)]
        rw [show (h : ℚ) / 2 - (nh : ℚ) / 2 = (((h : ℤ) - nh : ℤ) : ℚ) / 2 by
          push_cast; ring]
        exact floor_half_int _
      have hy2 : pyInt ((h : ℚ) / 2 + (nh : ℚ) / 2) = ((h : ℤ) + nh) / 2 := by
        rw [pyInt_of_nonneg (by
          have h0 : (0 : ℚ) ≤ (nh : ℚ) := by exact_mod_cast hnh0
          positivity)]
        rw [show (h : ℚ) / 2 + (nh : ℚ) / 2 = (((h : ℤ) + nh : ℤ) : ℚ) / 2 by
          push_cast; ring]
        exact floor_half_int _
      refine ⟨_, _, _, _, rfl, ?_⟩
      rw [if_neg hr, hy1, hy2, ← hnhfloor]
      refine ⟨by omega, rfl, rfl, by omega⟩
  · norm_num [resize_to_portrait, REEL_ASPECT_RATIO, REEL_WIDTH, REEL_HEIGHT,
      pyInt]

/-- Witness for `C6_crop_window` at a 1920×1080 clip. -/
theorem C6_crop_window_witness :
    ((0 : ℕ) < 1920 ∧ (0 : ℕ) < 1080) ∧
    ((∃ x1 x2 y1 y2 : ℤ,
      resize_to_portrait 1920 1080 "crop" =
        .ok ⟨some (x1, x2, y1, y2), (1080, 1920)⟩ ∧
      (if (1920 : ℚ) / (1080 : ℚ) > 9 / 16 then
        x2 - x1 = ⌊(1080 : ℚ) * (9 / 16)⌋ ∧ y1 = 0 ∧ y2 = (1080 : ℤ) ∧
          (x1 + x2 = (1920 : ℤ) ∨ x1 + x2 = (1920 : ℤ) - 1)
      else
        y2 - y1 = ⌊(1920 : ℚ) / (9 / 16)⌋ ∧ x1 = 0 ∧ x2 = (1920 : ℤ) ∧
          (y1 + y2 = (1080 : ℤ) ∨ y1 + y2 = (1080 : ℤ) - 1))) ∧
    resize_to_portrait 1080 1920 "crop" =
      .ok ⟨some (0, 1080, 0, 1920), (1080, 1920)⟩) :=
  ⟨⟨by norm_num, by norm_num⟩,
    by exact_mod_cast C6_crop_window 1920 1080 (by norm_num) (by norm_num)⟩

end Video2Reel

namespace Video2Reel

/-! ## Theorems for the extraction claim -/

/-- **C5** (counterexample): the single-highlight pipeline does not fail
fatally on every out-of-bounds range: for a source of actual duration 10,
the extraction step accepts the highlight `[0, 20]` (end beyond the
source) and returns an over-long clip instead of failing. -/
theorem C5_end_beyond_duration_accepted :
    extract_clip 10 0 20 = .ok { start := 0, duration := 20 } := by
  norm_num [extract_clip, subclip]

/-- **C5** (amended): the pipeline performs no range validation of its
own; extraction fails exactly when the trim primitive rejects the start —
i.e. when the start, re-interpreted from the end of the source when
negative, exceeds the source's actual duration.  An end beyond the
duration or an inverted range is accepted at extraction time. -/
theorem C5_extract_only_checks_start (d s e : ℚ) :
    (∃ c, extract_clip d s e = .ok c) ↔ (if s < 0 then d + s else s) ≤ d := by
  unfold extract_clip subclip
  constructor
  · rintro ⟨c, hc⟩
    by_contra hgt
    rw [not_le] at hgt
    rw [if_pos (by exact hgt)] at hc
    exact absurd hc (by simp)
  · intro hle
    rw [if_neg (not_lt.mpr hle)]
    exact ⟨_, rfl⟩

end Video2Reel

namespace Video2Reel

/-! ## Theorems for the batch pipeline claims -/

/-- With enough fuel, the decimal digits of `n` evaluate back to `n`. -/
theorem pyDigitsAux_val (fuel : ℕ) :
    ∀ n, n ≤ fuel → digitsVal (pyDigitsAux fuel n) = n := by
  induction fuel with
  | zero =>
    intro n hn
    obtain rfl : n = 0 := Nat.le_zero.mp hn
    rfl
  | succ fuel ih =>
    intro n hn
    match n with
    | 0 => rfl
    | m + 1 =>
      simp only [pyDigitsAux, digitsVal]
      rw [ih ((m + 1) / 10) (by omega)]
      have h10 : (m + 1) % 10 < 10 := Nat.mod_lt _ (by norm_num)
      have hd : (Nat.digitChar ((m + 1) % 10)).toNat - 48 = (m + 1) % 10 := by
        set k := (m + 1) % 10 with hk
        interval_cases k <;> rfl
      rw [hd]
      omega

/-- Function `pyDigits` recovers its argument under `digitsVal`. -/
theorem pyDigits_val (n : ℕ) : digitsVal (pyDigits n) = n :=
  pyDigitsAux_val n n le_rfl

/-- The decimal digit list determines the number. -/
theorem pyDigits_inj {m n : ℕ} (h : pyDigits m = pyDigits n) : m = n := by
  have hm := pyDigits_val m
  rw [h, pyDigits_val] at hm
  exact hm.symm

/-- No decimal digit character is an underscore. -/
theorem pyDigitsAux_no_underscore (fuel : ℕ) :
    ∀ n, '_' ∉ pyDigitsAux fuel n := by
  induction fuel with
  | zero => intro n; simp [pyDigitsAux]
  | succ fuel ih =>
    intro n
    match n with
    | 0 => simp [pyDigitsAux]
    | m + 1 =>
      simp only [pyDigitsAux, List.mem_cons, not_or]
      refine ⟨?_, ih _⟩
      have h10 : (m + 1) % 10 < 10 := Nat.mod_lt _ (by norm_num)
      set k := (m + 1) % 10 with hk
      interval_cases k <;> decide

/-- Splitting two list equalities at the first occurrence of a separator
that occurs in neither prefix. -/
theorem append_sep_inj {c : Char} :
    ∀ {xs ys as bs : List Char}, c ∉ xs → c ∉ ys →
      xs ++ c :: as = ys ++ c :: bs → xs = ys ∧ as = bs := by
  intro xs
  induction xs with
  | nil =>
    intro ys as bs _ hys h
    cases ys with
    | nil => simpa using h
    | cons y ys' =>
      simp only [List.nil_append, List.cons_append, List.cons.injEq] at h
      exact absurd (h.1 ▸ List.mem_cons_self y ys') hys
  | cons x xs' ih =>
    intro ys as bs hxs hys h
    cases ys with
    | nil =>
      simp only [List.cons_append, List.nil_append, List.cons.injEq] at h
      exact absurd (h.1 ▸ List.mem_cons_self x xs') (h.1 ▸ hxs)
    | cons y ys' =>
      simp only [List.cons_append, List.cons.injEq] at h
      obtain ⟨hxy, htail⟩ := h
      obtain ⟨h1, h2⟩ := ih (fun hm => hxs (List.mem_cons_of_mem _ hm))
        (fun hm => hys (List.mem_cons_of_mem _ hm)) htail
      exact ⟨by rw [hxy, h1], h2⟩

/-- The data of the numeral part of a batch filename is underscore-free. -/
theorem pyStr_succ_no_underscore (n : ℕ) : '_' ∉ (pyStr (n + 1)).data := by
  rw [pyStr, if_neg (Nat.succ_ne_zero n)]
  intro hmem
  exact pyDigitsAux_no_underscore (n + 1) (n + 1)
    (List.mem_reverse.mp hmem)

/-- **C9** (counterexample): the claim describes the slug as filtering
then replacing spaces with underscores; the code additionally strips
trailing whitespace (`rstrip()`) between the two, so for the title
`"A "` the actual filename differs from the claimed one. -/
theorem C9_slug_counterexample :
    outputFilename 0 "A " ≠ claimFilename 0 "A " ∧
      outputFilename 0 "A " = "reel_1_A.mp4" ∧
      claimFilename 0 "A " = "reel_1_A_.mp4" := by
  decide

/-- **C9** (amended): the output filename of the batch item with 0-based
index `i` is `reel_<i+1>_<slug(title)>.mp4` where the slug keeps only
alphanumerics, spaces, `-` and `_`, strips trailing whitespace, and then
replaces spaces with underscores (so `"Epic Save! #1"` slugs to
`"Epic_Save_1"`, with no `'!'` or `'#'` and no spaces); filenames of
distinct batch indices are always distinct. -/
theorem C9_filenames (i j : ℕ) (t1 t2 : String) (hij : i ≠ j) :
    outputFilename i t1 ≠ outputFilename j t2 ∧
      safeTitle "Epic Save! #1" = "Epic_Save_1" ∧
      ∀ c ∈ (safeTitle t1).data, c.isAlphanum ∨ c = '-' ∨ c = '_' := by
  refine ⟨?_, by decide, ?_⟩
  · intro heq
    have hdata := congrArg String.data heq
    simp only [outputFilename, String.data_append, List.append_assoc] at hdata
    have htail := List.append_cancel_left hdata
    simp only [List.singleton_append] at htail
    obtain ⟨hnum, -⟩ := append_sep_inj (pyStr_succ_no_underscore i)
      (pyStr_succ_no_underscore j) htail
    rw [pyStr, if_neg (Nat.succ_ne_zero i), pyStr,
      if_neg (Nat.succ_ne_zero j)] at hnum
    have hrev : (pyDigits (i + 1)).reverse = (pyDigits (j + 1)).reverse := hnum
    have := pyDigits_inj (List.reverse_injective hrev)
    omega
  · intro c hc
    simp only [safeTitle, pyRStrip, List.mem_map] at hc
    obtain ⟨c', hc', rfl⟩ := hc
    have hc'' : c' ∈ t1.data.filter fun c =>
        c.isAlphanum || c == ' ' || c == '-' || c == '_' := by
      have h1 := List.mem_reverse.mp hc'
      exact List.mem_reverse.mp (List.dropWhile_subset _ h1)
    simp only [List.mem_filter] at hc''
    have hprop := hc''.2
    simp only [Bool.or_eq_true, beq_iff_eq] at hprop
    by_cases hsp : c' = ' '
    · subst hsp; simp
    · rw [if_neg hsp]
      rcases hprop with ((ha | hs) | hd) | hu
      · exact Or.inl ha
      · exact absurd hs hsp
      · exact Or.inr (Or.inl hd)
      · exact Or.inr (Or.inr hu)

/-- Witness for `C9_filenames` at indices 0 and 1. -/
theorem C9_filenames_witness :
    ((0 : ℕ) ≠ 1) ∧
    (outputFilename 0 "x" ≠ outputFilename 1 "x" ∧
      safeTitle "Epic Save! #1" = "Epic_Save_1" ∧
      ∀ c ∈ (safeTitle "x").data, c.isAlphanum ∨ c = '-' ∨ c = '_') :=
  ⟨by decide, C9_filenames 0 1 "x" "x" (by decide)⟩

/-- The batch loop returns exactly the successful renders, in input order:
it is the `filterMap` of the per-item render over the indexed highlight
list. -/
theorem process_multiple_highlights_eq_filterMap
    (render : ℕ → ℚ → ℚ → String → Option String) :
    ∀ (i : ℕ) (hs : List Highlight),
      process_multiple_highlights render i hs =
        (hs.enumFrom i).filterMap fun p =>
          render p.1 p.2.start p.2.stop (outputFilename p.1 p.2.title) := by
  intro i hs
  induction hs generalizing i with
  | nil => rfl
  | cons hd tl ih =>
    simp only [process_multiple_highlights, List.enumFrom, List.filterMap_cons]
    cases hrender : render i hd.start hd.stop (outputFilename i hd.title) with
    | none => simpa [hrender] using ih (i + 1)
    | some p => simpa [hrender] using ih (i + 1)

/-- **C1**: the batch pipeline catches each per-highlight failure, skips
that highlight and continues, returning exactly the successful items'
output paths in input order (the `filterMap` of the per-item render over
the enumerated input); concretely, for 3 highlights where only the 2nd
fails, it returns exactly the paths of items 1 and 3. -/
theorem C1_batch_isolation
    (render : ℕ → ℚ → ℚ → String → Option String)
    (highlights : List Highlight) :
    (process_multiple_highlights render 0 highlights =
      highlights.enum.filterMap fun p =>
        render p.1 p.2.start p.2.stop (outputFilename p.1 p.2.title)) ∧
    process_multiple_highlights
        (fun i _ _ fname => if i = 1 then none else some fname) 0
        [⟨"A", 0, 5⟩, ⟨"B", 100, 200⟩, ⟨"C", 10, 15⟩] =
      ["reel_1_A.mp4", "reel_3_C.mp4"] := by
  constructor
  · exact process_multiple_highlights_eq_filterMap render 0 highlights
  · simp only [process_multiple_highlights]
    norm_num
    decide

end Video2Reel

namespace Video2Reel

/-! ## Theorems for the resource-cleanup and caption-stage claims -/

/-- **C8** (counterexample): on a successful captioned run, the source
video, transformed clip and composited clip handles are opened inside the
pipeline but are not closed before control returns — only the trimmed
sub-clip (the sole element of `temp_clips`) is. -/
theorem C8_not_all_handles_released :
    ClipHandle.sourceVideo ∈ (pipelineRun true true true true).opened ∧
    ClipHandle.sourceVideo ∉ (pipelineRun true true true true).closed ∧
    ClipHandle.transformedClip ∈ (pipelineRun true true true true).opened ∧
    ClipHandle.transformedClip ∉ (pipelineRun true true true true).closed ∧
    ClipHandle.compositedClip ∈ (pipelineRun true true true true).opened ∧
    ClipHandle.compositedClip ∉ (pipelineRun true true true true).closed := by
  decide

/-- **C8** (amended): on every exit path the pipeline closes exactly the
handles collected in `temp_clips` — the trimmed sub-clip when extraction
succeeded, nothing otherwise; the source video, transformed and composited
clip handles are never explicitly closed (in particular, when `subclip`
itself raises, the already-opened source video is not closed at all). -/
theorem C8_closes_exactly_temp_clips
    (openOk trimOk resizeOk composited : Bool) :
    ((pipelineRun openOk trimOk resizeOk composited).closed =
      (pipelineRun openOk trimOk resizeOk composited).tempClips) ∧
    ((pipelineRun openOk trimOk resizeOk composited).closed =
      if openOk ∧ trimOk then [ClipHandle.trimmedClip] else []) ∧
    ClipHandle.sourceVideo ∉ (pipelineRun openOk trimOk resizeOk composited).closed ∧
    ClipHandle.transformedClip ∉ (pipelineRun openOk trimOk resizeOk composited).closed ∧
    ClipHandle.compositedClip ∉ (pipelineRun openOk trimOk resizeOk composited).closed := by
  cases openOk <;> cases trimOk <;> cases resizeOk <;> cases composited <;> decide

/-- **C10** (counterexample): an error while building one caption's
overlay does not make `add_captions` return the base clip unchanged — the
failing caption is skipped and the remaining overlay is composited, so the
result differs from the base clip. -/
theorem C10_overlay_error_not_base :
    add_captions mkBad compCount ⟨10, 30, 0⟩ [⟨"bad", 0, 1⟩, ⟨"ok", 2, 3⟩] =
      { duration := 10, fps := 30, numOverlays := 1 } ∧
    ({ duration := 10, fps := 30, numOverlays := 1 } : Clip) ≠ ⟨10, 30, 0⟩ := by
  constructor
  · have h1 : pyStrip "bad" = "bad" := rfl
    have h2 : pyStrip "ok" = "ok" := rfl
    have h3 : ("ok" : String) ≠ "" := by decide
    have h4 : ("ok" : String) ≠ "bad" := by decide
    norm_num [add_captions, buildOverlays, mkBad, compCount, h1, h2, h3, h4,
      List.filterMap_cons]
    exact List.cons_ne_nil _ _
  · simp [Clip.mk.injEq]

/-- **C10** (amended): `add_captions` is a total function of the clip (no
exception propagates); it returns the base clip unchanged when the caption
list is empty, when no valid overlay is produced, or when the composite
primitive fails; a failure while building one overlay skips only that
caption; and when the composite succeeds the result carries exactly the
base clip's duration and fps. -/
theorem C10_add_captions_policy (mkOk : String → ℚ → Bool)
    (comp : Clip → List Overlay → Option Clip) (clip : Clip)
    (captions : List Caption) :
    (captions = [] → add_captions mkOk comp clip captions = clip) ∧
    (buildOverlays mkOk clip.duration captions = [] →
      add_captions mkOk comp clip captions = clip) ∧
    (comp clip (buildOverlays mkOk clip.duration captions) = none →
      add_captions mkOk comp clip captions = clip) ∧
    (∀ fc, comp clip (buildOverlays mkOk clip.duration captions) = some fc →
      buildOverlays mkOk clip.duration captions ≠ [] →
      (add_captions mkOk comp clip captions).duration = clip.duration ∧
      (add_captions mkOk comp clip captions).fps = clip.fps) := by
  refine ⟨fun h => by simp [add_captions, h], ?_, ?_, ?_⟩
  · intro h
    by_cases hc : captions = [] <;> simp [add_captions, h, hc]
  · intro h
    by_cases hc : captions = []
    · simp [add_captions, hc]
    · by_cases hb : buildOverlays mkOk clip.duration captions = [] <;>
        simp [add_captions, h, hc, hb]
  · intro fc hcomp hne
    by_cases hc : captions = []
    · subst hc
      exact absurd rfl hne
    · simp [add_captions, hc, hne, hcomp]

/-- Witness for `C10_add_captions_policy`: with an empty caption list the
base clip is returned unchanged. -/
theorem C10_add_captions_policy_witness :
    add_captions mkBad compCount ⟨5, 25, 0⟩ [] = ⟨5, 25, 0⟩ :=
  (C10_add_captions_policy mkBad compCount ⟨5, 25, 0⟩ []).1 rfl

end Video2Reel

namespace Video2Reel

/-! ## Theorem for the highlight-parser claim -/

/-- **C7**: parsing the literal text
`**Big Save**: [12s (00:12)~27s (00:27)]` yields exactly one highlight
`{title := "Big Save", start := 12.0, end := 27.0}` — one highlight per
occurrence of the bracket pattern, integer seconds coerced to floats,
title stripped — and parsing text containing no occurrence of the pattern
returns the empty list rather than raising (the parser is a total
function by construction). -/
theorem C7_parse_highlights :
    parse_highlights_from_analysis
        "**Big Save**: [12s (00:12)~27s (00:27)]" =
      [{ title := "Big Save", start := 12, stop := 27 }] ∧
    parse_highlights_from_analysis "Analysis: nothing found." = [] := by
  constructor
  · have hfind : findall ("**Big Save**: [12s (00:12)~27s (00:27)]".data) =
        [⟨some ['B', 'i', 'g', ' ', 'S', 'a', 'v', 'e'],
          some ['1', '2'], some ['2', '7']⟩] := by
      decide
    rw [parse_highlights_from_analysis, hfind]
    have htitle :
        pyStrip (String.mk ['B', 'i', 'g', ' ', 'S', 'a', 'v', 'e']) =
          "Big Save" := rfl
    have hstart : natOfDigits ['1', '2'] = 12 := rfl
    have hstop : natOfDigits ['2', '7'] = 27 := rfl
    simp [htitle, hstart, hstop]
  · have hfind : findall ("Analysis: nothing found.".data) = [] := by decide
    rw [parse_highlights_from_analysis, hfind]
    rfl

end Video2Reel
